import Mathlib

/-!
Shallow embedding of `src/loader.js` (Ircam-RnD/buffer-loader): a
promise-based wrapper around XMLHttpRequest for GET requests, with
single-file and batch loading and optional progress reporting.

The embedding models the JavaScript values and control flow of the single
source file. Host primitives (the XHR transport and `JSON.parse`) are
taken as parameters; the repository's own logic (argument dispatch,
response-type inference, status handling, progress-record construction,
callback registration) is translated directly from the source.
-/

set_option autoImplicit false

namespace BufferLoader

/-- A JavaScript `Error` object, identified by its message
(as produced by `new Error(msg)` in `loader.js`). -/
structure JsError where
  message : String
deriving DecidableEq, Repr

/-- The JavaScript values that can reach `load(fileURLs)`: `undefined`,
`null`, strings, numbers, and arrays.  `load` only distinguishes
`undefined` (throws), arrays (batch path) and everything else (single
path), so this fragment is enough to model the dispatch. -/
inductive JsVal where
  | undef : JsVal
  | null : JsVal
  | str (s : String) : JsVal
  | num (n : Int) : JsVal
  | arr (elems : List String) : JsVal
deriving DecidableEq, Repr

/-- How `load` routes its argument: one fetch for a single URL, or one
indexed fetch per array member (`loadOne` / `loadAll` in the source). -/
inductive Dispatch where
  | one (url : JsVal) : Dispatch
  | all (urls : List String) : Dispatch
deriving DecidableEq, Repr

/-- `load(fileURLs)` from `loader.js`: throws synchronously (modelled as
`Except.error`) on `undefined`, otherwise routes arrays to `loadAll` and
every other value to `loadOne`. -/
def load : JsVal → Except JsError Dispatch
  | .undef => .error ⟨"Invalid fileURLs parameter: load method needs at least a url to load"⟩
  | .arr urls => .ok (.all urls)
  | v => .ok (.one v)

/-- The fetches actually issued by a call to `load`: none when it throws,
one un-indexed request on the single path, and one request per member
tagged with its array position on the batch path (`fileLoadingRequest(fileURL, index)`). -/
def loadDispatched (v : JsVal) : List (JsVal × Option Nat) :=
  match load v with
  | .error _ => []
  | .ok (.one u) => [(u, none)]
  | .ok (.all urls) => urls.enum.map fun p => (JsVal.str p.2, some p.1)

/-- Truthiness of the constructor's `responseType` field: `undefined` and
the empty string are falsy, every other string is truthy
(`if (this.responseType)` in `fileLoadingRequest`). -/
def jsTruthy : Option String → Bool
  | none => false
  | some s => s ≠ ""

/-- `pat` matches at the start of `s` (character-by-character). -/
def startMatch : List Char → List Char → Bool
  | [], _ => true
  | _ :: _, [] => false
  | a :: pat, b :: s => a = b && startMatch pat s

/-- `pat` occurs as a contiguous substring of `s`
(the semantics of `s.indexOf(pat, 0) !== -1` in JavaScript). -/
def containsSub (pat : List Char) : List Char → Bool
  | [] => pat.isEmpty
  | b :: s => startMatch pat (b :: s) || containsSub pat s

/-- `pat` is a suffix of `s`. -/
def suffixMatch (pat s : List Char) : Bool :=
  startMatch pat.reverse s.reverse

/-- The response type chosen on the inference path of
`fileLoadingRequest`.  The source computes
`url.indexOf('.json', this.length - suffix.length) !== -1`, but `this`
is the `Loader` instance (arrow-function scope), so `this.length` is
`undefined`, the start position is `NaN`, and `String.indexOf` clamps it
to 0: the test is a substring-containment test, not a suffix test. -/
def inferResponseType (url : String) : String :=
  if containsSub ".json".data url.data then "json" else "arraybuffer"

/-- The effective `request.responseType` set by `fileLoadingRequest`:
the constructor hint when it is truthy, otherwise the inferred type. -/
def effectiveResponseType (hint : Option String) (url : String) : String :=
  if jsTruthy hint then hint.getD "" else inferResponseType url

/-- The suffix test the spec describes ("URLs ending in .json"), for
comparison with what the code computes. -/
def endsWithJson (url : String) : Bool :=
  suffixMatch ".json".data url.data

/-- The value of `request.response` delivered by the transport:
either a raw JavaScript string (not yet parsed, the iOS-7 case the
source accommodates), or any other value (already-parsed JSON, an
ArrayBuffer, a Blob, a Document ...), abstracted as `β`. -/
inductive JsResponse (β : Type) where
  | str (s : String) : JsResponse β
  | other (v : β) : JsResponse β
deriving DecidableEq, Repr

/-- What a DOM event listener attached inside the promise executor can do
to the promise: call `resolve`, call `reject`, or raise an exception that
escapes the listener (which settles nothing — the promise machinery never
sees it, since the listener runs outside the executor). -/
inductive HandlerOutcome (ε α : Type) where
  | resolved (v : α) : HandlerOutcome ε α
  | rejected (e : ε) : HandlerOutcome ε α
  | threw (e : ε) : HandlerOutcome ε α
deriving DecidableEq, Repr

/-- The `load` event listener of `fileLoadingRequest`, translated
branch-for-branch.  `parse` stands for the host's `JSON.parse`, which the
listener calls without a surrounding try/catch: a parse failure is a
`threw` outcome, not a `rejected` one.  `responseType` is the value set
on the request (inside the listener, `this` is the request itself, so
`this.responseType` reads that value). -/
def onLoadListener {β : Type} (responseType : String)
    (parse : String → Except JsError β)
    (status : Nat) (statusText : String) (response : JsResponse β) :
    HandlerOutcome JsError (JsResponse β) :=
  if status = 200 ∨ status = 304 ∨ status = 0 then
    match response with
    | .str s =>
      if responseType = "json" then
        match parse s with
        | .ok v => .resolved (.other v)
        | .error e => .threw e
      else .resolved (.str s)
    | .other v => .resolved (.other v)
  else .rejected ⟨statusText⟩

/-- The `error` event listener of `fileLoadingRequest`: always rejects
with the fixed generic message. -/
def onErrorListener (β : Type) : HandlerOutcome JsError (JsResponse β) :=
  .rejected ⟨"Network Error"⟩

/-- The progress record built by the `progress` event listener: a
JavaScript object literal, modelled as an ordered key/value list.
Fields are `value` (the `loaded/total` ratio), `loaded`, `total`, and
`index` exactly when the request was created with an index. -/
def progressEventRecord (loaded total : ℚ) (index : Option Nat) :
    List (String × ℚ) :=
  [("value", loaded / total), ("loaded", loaded), ("total", total)] ++
    (match index with
     | some i => [("index", (i : ℚ))]
     | none => [])

/-- The `progress` event listener: reads `this.progressCallback` (the
loader's current slot, via the arrow function's captured `this`) at the
moment the event fires; when a callback is registered it is invoked with
the freshly built record, otherwise nothing happens.  The result is the
invocation performed, if any. -/
def progressNotification {κ : Type} (slot : Option κ)
    (loaded total : ℚ) (index : Option Nat) :
    Option (κ × List (String × ℚ)) :=
  match slot with
  | none => none
  | some cb => some (cb, progressEventRecord loaded total index)

/-- The mutable state of a `Loader` instance: the construction-time
`responseType` and the single `progressCb` slot (`undefined` initially).
`κ` is the type of callback values. -/
structure LoaderState (κ : Type) where
  responseType : Option String
  progressCb : Option κ
deriving DecidableEq, Repr

/-- The constructor: stores the hint and leaves the callback slot empty. -/
def Loader.init (κ : Type) (responseType : Option String) : LoaderState κ :=
  ⟨responseType, none⟩

/-- `onProgress(callback)`: assigns `this.progressCb`. -/
def onProgressMethod {κ : Type} (st : LoaderState κ) (cb : κ) : LoaderState κ :=
  { st with progressCb := some cb }

/-- The `progressCallback` property setter: assigns `this.progressCb`. -/
def setProgressCallbackProp {κ : Type} (st : LoaderState κ) (cb : κ) : LoaderState κ :=
  { st with progressCb := some cb }

/-- The `progressCallback` property getter: reads `this.progressCb`. -/
def getProgressCallbackProp {κ : Type} (st : LoaderState κ) : Option κ :=
  st.progressCb

/-- A registration action, through either public path. -/
inductive RegOp (κ : Type) where
  | viaMethod (cb : κ) : RegOp κ
  | viaProperty (cb : κ) : RegOp κ
deriving DecidableEq, Repr

/-- The callback a registration carries. -/
def regCb {κ : Type} : RegOp κ → κ
  | .viaMethod cb => cb
  | .viaProperty cb => cb

/-- Apply one registration to the loader state. -/
def applyReg {κ : Type} (st : LoaderState κ) : RegOp κ → LoaderState κ
  | .viaMethod cb => onProgressMethod st cb
  | .viaProperty cb => setProgressCallbackProp st cb

/-- Apply a sequence of registrations in order. -/
def applyRegs {κ : Type} (st : LoaderState κ) (ops : List (RegOp κ)) : LoaderState κ :=
  ops.foldl applyReg st

/-- An observable event on a loader over time: a callback registration
(by either path) or a transport progress notification for some in-flight
request (identified by its optional batch index). -/
inductive SysEvent (κ : Type) where
  | register (op : RegOp κ) : SysEvent κ
  | progress (loaded total : ℚ) (index : Option Nat) : SysEvent κ
deriving DecidableEq, Repr

/-- Whether an event is a registration. -/
def SysEvent.isRegister {κ : Type} : SysEvent κ → Bool
  | .register _ => true
  | .progress _ _ _ => false

/-- Run a trace of events against a loader state, collecting the
callback invocations each progress notification performs (each made with
the slot as it stands when that event fires). -/
def runEvents {κ : Type} (st : LoaderState κ) :
    List (SysEvent κ) → List (κ × List (String × ℚ))
  | [] => []
  | .register op :: es => runEvents (applyReg st op) es
  | .progress loaded total index :: es =>
      (progressNotification st.progressCb loaded total index).toList ++
        runEvents st es

/-- The loader state after a trace of events. -/
def finalState {κ : Type} (st : LoaderState κ) :
    List (SysEvent κ) → LoaderState κ
  | [] => st
  | .register op :: es => finalState (applyReg st op) es
  | .progress _ _ _ :: es => finalState st es

/-- The indexed member outcomes of a batch that settled as rejections,
paired with their array positions (`k` is the position of the list head). -/
def errEntries {ε α : Type} : Nat → List (Except ε α) → List (Nat × ε)
  | _, [] => []
  | k, .ok _ :: os => errEntries (k + 1) os
  | k, .error e :: os => (k, e) :: errEntries (k + 1) os

/-- The entry with the smallest rank (ties broken towards the front),
modelling which of several rejections settles first in time. -/
def minByRank {ε : Type} (rank : Nat → Nat) : List (Nat × ε) → Option (Nat × ε)
  | [] => none
  | x :: xs =>
    match minByRank rank xs with
    | none => some x
    | some y => if rank x.1 ≤ rank y.1 then some x else some y

/-- `Promise.all` over the member outcomes of a batch: if every member
resolved, resolve with the list of payloads in input order; otherwise
reject with the rejection that settles first under the completion-time
ranking `rank` (the member whose rank is smallest). -/
def promiseAll {ε α : Type} (outs : List (Except ε α)) (rank : Nat → Nat) :
    Except ε (List α) :=
  match minByRank rank (errEntries 0 outs) with
  | some (_, e) => .error e
  | none => .ok (outs.filterMap Except.toOption)

/-- The overall result `load` hands back on each path. -/
inductive LoadResult (α : Type) where
  | single (a : α) : LoadResult α
  | batch (l : List α) : LoadResult α
deriving DecidableEq, Repr

/-- End-to-end model of `load`: the outer `Except` is the synchronous
throw on `undefined`; the inner `Except` is the settled promise.
`fetch` abstracts one `fileLoadingRequest` run to completion: given the
URL value and the optional batch index, it yields that member's settled
outcome.  `rank` orders the members' settling times. -/
def loadModel {α : Type} (fetch : JsVal → Option Nat → Except JsError α)
    (rank : Nat → Nat) (v : JsVal) :
    Except JsError (Except JsError (LoadResult α)) :=
  match load v with
  | .error e => .error e
  | .ok (.one u) => .ok ((fetch u none).map .single)
  | .ok (.all urls) =>
      .ok ((promiseAll (urls.enum.map fun p => fetch (.str p.2) (some p.1)) rank).map .batch)

/-- Whether a JavaScript value is an array (`Array.isArray`). -/
def JsVal.isArr : JsVal → Bool
  | .arr _ => true
  | _ => false

/-- Whether a handler outcome called `resolve`. -/
def HandlerOutcome.isResolved {ε α : Type} : HandlerOutcome ε α → Bool
  | .resolved _ => true
  | _ => false

/-- Whether a handler outcome called `reject`. -/
def HandlerOutcome.isRejected {ε α : Type} : HandlerOutcome ε α → Bool
  | .rejected _ => true
  | _ => false

/- ### Helper lemmas -/

theorem applyRegs_getLast {κ : Type} (st : LoaderState κ) (ops : List (RegOp κ))
    (h : ops ≠ []) :
    getProgressCallbackProp (applyRegs st ops) = some (regCb (ops.getLast h)) := by
  induction ops generalizing st with
  | nil => exact absurd rfl h
  | cons op ops ih =>
    cases ops with
    | nil => cases op <;> rfl
    | cons op2 ops2 =>
      rw [List.getLast_cons (List.cons_ne_nil op2 ops2)]
      exact ih (applyReg st op) (List.cons_ne_nil op2 ops2)

theorem errEntries_eq_nil_iff {ε α : Type} (k : Nat) (outs : List (Except ε α)) :
    errEntries k outs = [] ↔ ∀ o ∈ outs, ∃ a, o = .ok a := by
  induction outs generalizing k with
  | nil => simp [errEntries]
  | cons o os ih =>
    cases o with
    | ok a => simp [errEntries, ih]
    | error e => simp [errEntries]

theorem mem_errEntries {ε α : Type} {k : Nat} {outs : List (Except ε α)}
    {x : Nat × ε} (hx : x ∈ errEntries k outs) :
    ∃ j, ∃ (hj : j < outs.length), x.1 = k + j ∧ outs.get ⟨j, hj⟩ = .error x.2 := by
  induction outs generalizing k with
  | nil => simp [errEntries] at hx
  | cons o os ih =>
    cases o with
    | ok a =>
      obtain ⟨j, hj, h1, h2⟩ := ih (k := k + 1) hx
      exact ⟨j + 1, Nat.succ_lt_succ hj, by omega, by simpa using h2⟩
    | error e =>
      rw [errEntries] at hx
      rcases List.mem_cons.mp hx with h | h
      · subst h
        exact ⟨0, Nat.succ_pos _, by omega, rfl⟩
      · obtain ⟨j, hj, h1, h2⟩ := ih (k := k + 1) h
        exact ⟨j + 1, Nat.succ_lt_succ hj, by omega, by simpa using h2⟩

theorem minByRank_eq_none_iff {ε : Type} (rank : Nat → Nat) (l : List (Nat × ε)) :
    minByRank rank l = none ↔ l = [] := by
  cases l with
  | nil => simp [minByRank]
  | cons x xs =>
    simp only [minByRank]
    constructor
    · intro h
      cases hm : minByRank rank xs with
      | none => rw [hm] at h; exact Option.noConfusion h
      | some y =>
        rw [hm] at h
        by_cases hr : rank x.1 ≤ rank y.1 <;> simp [hr] at h
    · intro h
      exact absurd h (List.cons_ne_nil x xs)

theorem minByRank_mem {ε : Type} {rank : Nat → Nat} {l : List (Nat × ε)}
    {x : Nat × ε} (h : minByRank rank l = some x) : x ∈ l := by
  induction l with
  | nil => simp [minByRank] at h
  | cons y ys ih =>
    rw [minByRank] at h
    cases hm : minByRank rank ys with
    | none =>
      rw [hm] at h
      cases h
      exact List.mem_cons_self _ _
    | some z =>
      rw [hm] at h
      by_cases hr : rank y.1 ≤ rank z.1
      · simp only [hr, if_true] at h
        cases h
        exact List.mem_cons_self _ _
      · simp only [hr, if_false] at h
        cases h
        exact List.mem_cons_of_mem _ (ih hm)

theorem filterMap_toOption_length {ε α : Type} (outs : List (Except ε α))
    (h : ∀ o ∈ outs, ∃ a, o = .ok a) :
    (outs.filterMap Except.toOption).length = outs.length := by
  induction outs with
  | nil => rfl
  | cons o os ih =>
    obtain ⟨a, ha⟩ := h o (List.mem_cons_self _ _)
    subst ha
    simp [List.filterMap_cons, Except.toOption,
      ih (fun o ho => h o (List.mem_cons_of_mem _ ho))]

theorem filterMap_toOption_get {ε α : Type} (outs : List (Except ε α))
    (h : ∀ o ∈ outs, ∃ a, o = .ok a) (i : Nat) (hi : i < outs.length)
    (hi' : i < (outs.filterMap Except.toOption).length) :
    outs.get ⟨i, hi⟩ = .ok ((outs.filterMap Except.toOption).get ⟨i, hi'⟩) := by
  induction outs generalizing i with
  | nil => exact absurd hi (Nat.not_lt_zero i)
  | cons o os ih =>
    obtain ⟨a, ha⟩ := h o (List.mem_cons_self _ _)
    subst ha
    cases i with
    | zero => simp [List.filterMap_cons, Except.toOption]
    | succ j =>
      have hmem : ∀ o ∈ os, ∃ a, o = .ok a := fun o ho => h o (List.mem_cons_of_mem _ ho)
      have hj : j < os.length := Nat.lt_of_succ_lt_succ hi
      have hj' : j < (os.filterMap Except.toOption).length := by
        rw [filterMap_toOption_length os hmem]; exact hj
      have := ih hmem j hj hj'
      simpa [List.filterMap_cons, Except.toOption] using this

theorem promiseAll_ok_iff {ε α : Type} (outs : List (Except ε α)) (rank : Nat → Nat) :
    (∃ rs, promiseAll outs rank = .ok rs) ↔ ∀ o ∈ outs, ∃ a, o = .ok a := by
  constructor
  · rintro ⟨rs, h⟩
    rw [promiseAll] at h
    cases hm : minByRank rank (errEntries 0 outs) with
    | none => exact (errEntries_eq_nil_iff 0 outs).mp ((minByRank_eq_none_iff _ _).mp hm)
    | some x =>
      obtain ⟨i, e⟩ := x
      rw [hm] at h
      exact Except.noConfusion h
  · intro h
    have hnil : errEntries 0 outs = [] := (errEntries_eq_nil_iff 0 outs).mpr h
    exact ⟨outs.filterMap Except.toOption, by rw [promiseAll, hnil]; rfl⟩

theorem promiseAll_eq_ok {ε α : Type} {outs : List (Except ε α)} {rank : Nat → Nat}
    {rs : List α} (h : promiseAll outs rank = .ok rs) :
    rs = outs.filterMap Except.toOption ∧ ∀ o ∈ outs, ∃ a, o = .ok a := by
  have hall : ∀ o ∈ outs, ∃ a, o = .ok a := (promiseAll_ok_iff outs rank).mp ⟨rs, h⟩
  have hnil : errEntries 0 outs = [] := (errEntries_eq_nil_iff 0 outs).mpr hall
  rw [promiseAll, hnil] at h
  exact ⟨(Except.ok.inj h).symm, hall⟩

theorem promiseAll_error_mem {ε α : Type} {outs : List (Except ε α)} {rank : Nat → Nat}
    {e : ε} (h : promiseAll outs rank = .error e) :
    ∃ i, ∃ (hi : i < outs.length), outs.get ⟨i, hi⟩ = .error e := by
  rw [promiseAll] at h
  cases hm : minByRank rank (errEntries 0 outs) with
  | none =>
    rw [hm] at h
    exact Except.noConfusion h
  | some x =>
    obtain ⟨i, e'⟩ := x
    rw [hm] at h
    have he : e' = e := (Except.error.inj h)
    subst he
    obtain ⟨j, hj, _, hget⟩ := mem_errEntries (minByRank_mem hm)
    exact ⟨j, hj, hget⟩

theorem enum_map_get {α β : Type} (f : Nat × α → β) (l : List α) (i : Nat)
    (hi : i < l.length) (hi' : i < (l.enum.map f).length) :
    (l.enum.map f).get ⟨i, hi'⟩ = f (i, l.get ⟨i, hi⟩) := by
  simp [List.get_eq_getElem, List.getElem_map, List.getElem_enum]

theorem forall_mem_enum_map {α β : Type} (f : Nat × α → β) (l : List α) (P : β → Prop) :
    (∀ o ∈ l.enum.map f, P o) ↔ ∀ i (hi : i < l.length), P (f (i, l.get ⟨i, hi⟩)) := by
  have hlen : (l.enum.map f).length = l.length := by simp
  constructor
  · intro h i hi
    have hi' : i < (l.enum.map f).length := by rw [hlen]; exact hi
    have := h ((l.enum.map f).get ⟨i, hi'⟩) (List.get_mem _ _ _)
    rwa [enum_map_get f l i hi hi'] at this
  · intro h o ho
    obtain ⟨⟨i, hi'⟩, rfl⟩ := List.mem_iff_get.mp ho
    have hi : i < l.length := by rw [← hlen]; exact hi'
    rw [enum_map_get f l i hi hi']
    exact h i hi

/- ### C2 -/

/-- C2 (code bug): with no constructor hint, the URL "a.json.png" does not
end in ".json", yet the code requests the "json" response type: the start
position `this.length - suffix.length` evaluates to `NaN` (the `Loader`
instance has no `length`), which `indexOf` clamps to 0, so the code tests
containment rather than the intended suffix.  URLs that do end in ".json"
and URLs not containing ".json" at all behave as the spec states. -/
theorem inferResponseType_containment_bug :
    effectiveResponseType none "a.json.png" = "json" ∧
    endsWithJson "a.json.png" = false ∧
    effectiveResponseType none "a.json" = "json" ∧
    endsWithJson "a.json" = true ∧
    effectiveResponseType none "b.bin" = "arraybuffer" := by
  decide

/- ### C1 -/

/-- C1: on an array of URLs, `load` dispatches one indexed fetch per
member and aggregates them all-or-nothing: the batch resolves exactly
when every member resolves; a resolved batch has the same length as the
input, its element at each index is the payload of the fetch for the URL
at that index, and the resolved value does not depend on the completion
ranking; if any member rejects, the batch rejects with a failing
member's own error and exposes no payload list; the empty array resolves
to the empty list. -/
theorem load_batch_spec {α : Type} (fetch : JsVal → Option Nat → Except JsError α)
    (rank rank' : Nat → Nat) (urls : List String) :
    (loadModel fetch rank (.arr urls) =
      .ok ((promiseAll (urls.enum.map fun p => fetch (.str p.2) (some p.1)) rank).map .batch)) ∧
    ((∃ rs, promiseAll (urls.enum.map fun p => fetch (.str p.2) (some p.1)) rank = .ok rs) ↔
      ∀ i (hi : i < urls.length), ∃ a, fetch (.str (urls.get ⟨i, hi⟩)) (some i) = .ok a) ∧
    (∀ rs, promiseAll (urls.enum.map fun p => fetch (.str p.2) (some p.1)) rank = .ok rs →
      rs.length = urls.length ∧
      (∀ i (hi : i < urls.length) (hi' : i < rs.length),
        fetch (.str (urls.get ⟨i, hi⟩)) (some i) = .ok (rs.get ⟨i, hi'⟩)) ∧
      promiseAll (urls.enum.map fun p => fetch (.str p.2) (some p.1)) rank' = .ok rs) ∧
    (∀ e, promiseAll (urls.enum.map fun p => fetch (.str p.2) (some p.1)) rank = .error e →
      ∃ i, ∃ (hi : i < urls.length), fetch (.str (urls.get ⟨i, hi⟩)) (some i) = .error e) ∧
    loadModel fetch rank (.arr []) = .ok (.ok (.batch [])) := by
  have hlen : (urls.enum.map fun p => fetch (.str p.2) (some p.1)).length = urls.length := by
    simp
  refine ⟨rfl, ?_, ?_, ?_, rfl⟩
  · exact (promiseAll_ok_iff _ _).trans (forall_mem_enum_map _ _ _)
  · intro rs h
    obtain ⟨hrs, hall⟩ := promiseAll_eq_ok h
    subst hrs
    refine ⟨by rw [filterMap_toOption_length _ hall, hlen], ?_, ?_⟩
    · intro i hi hi'
      have hio : i < (urls.enum.map fun p => fetch (.str p.2) (some p.1)).length := by
        rw [hlen]; exact hi
      have hg := filterMap_toOption_get _ hall i hio hi'
      rw [enum_map_get _ _ i hi hio] at hg
      exact hg
    · have hnil := (errEntries_eq_nil_iff 0 _).mpr hall
      rw [promiseAll, hnil]
      rfl
  · intro e h
    obtain ⟨i, hio, hget⟩ := promiseAll_error_mem h
    have hi : i < urls.length := by rw [← hlen]; exact hio
    rw [enum_map_get _ _ i hi hio] at hget
    exact ⟨i, hi, hget⟩

/-- A concrete fetch function used by the C1 witness: resolves a string
URL with its length and rejects every other value. -/
def fetchLen : JsVal → Option Nat → Except JsError Nat
  | .str s, _ => .ok s.length
  | _, _ => .error ⟨"bad url"⟩

/-- Witness for C1 at a concrete two-element batch, with two different
completion rankings. -/
theorem load_batch_spec_witness :
    ([6, 2] : List Nat).length = (["a.json", "bb"] : List String).length ∧
    promiseAll ((["a.json", "bb"] : List String).enum.map
      fun p => fetchLen (.str p.2) (some p.1)) (fun i => 5 - i) = .ok [6, 2] := by
  have h := (load_batch_spec fetchLen id (fun i => 5 - i) ["a.json", "bb"]).2.2.1 [6, 2] rfl
  exact ⟨h.1, h.2.2⟩

/- ### C4 -/

/-- C4: `load(undefined)` throws synchronously (the outer, synchronous
channel of the model) with the fixed invalid-parameter error, dispatches
no fetch, and never reaches the asynchronous outcome channel. -/
theorem load_undefined_throws :
    load JsVal.undef =
      .error ⟨"Invalid fileURLs parameter: load method needs at least a url to load"⟩ ∧
    loadDispatched JsVal.undef = [] ∧
    loadModel (fun _ _ => (.ok 0 : Except JsError Nat)) id JsVal.undef =
      .error ⟨"Invalid fileURLs parameter: load method needs at least a url to load"⟩ :=
  ⟨rfl, rfl, rfl⟩

/- ### C10 -/

/-- C10: every argument other than `undefined` that is not an array —
`null`, a string (empty or not), a number — is dispatched as a single
fetch with the argument itself as the URL; only the exact value
`undefined` triggers the synchronous throw. -/
theorem load_non_undefined_non_array_single (v : JsVal)
    (h1 : v ≠ JsVal.undef) (h2 : v.isArr = false) :
    load v = .ok (.one v) ∧ loadDispatched v = [(v, none)] := by
  cases v with
  | undef => exact absurd rfl h1
  | arr l => exact absurd h2 (by simp [JsVal.isArr])
  | null => exact ⟨rfl, rfl⟩
  | str s => exact ⟨rfl, rfl⟩
  | num n => exact ⟨rfl, rfl⟩

/-- Witness for C10 at the concrete input `null`. -/
theorem load_non_undefined_non_array_single_witness :
    load JsVal.null = .ok (.one JsVal.null) ∧
    loadDispatched JsVal.null = [(JsVal.null, none)] :=
  load_non_undefined_non_array_single JsVal.null (by decide) (by decide)

/- ### C7 -/

/-- C7: the fetcher keeps a single progress-callback slot: the
`onProgress` method and the `progressCallback` setter write the same
slot, each registration overwrites the previous one by either path, and
after any non-empty registration sequence the `progressCallback` getter
returns exactly the most recently registered callback. -/
theorem progressCallback_slot_spec {κ : Type} (st : LoaderState κ)
    (ops : List (RegOp κ)) (h : ops ≠ []) :
    (∀ cb, onProgressMethod st cb = setProgressCallbackProp st cb) ∧
    (∀ op, getProgressCallbackProp (applyReg st op) = some (regCb op)) ∧
    getProgressCallbackProp (applyRegs st ops) = some (regCb (ops.getLast h)) := by
  refine ⟨fun cb => rfl, fun op => ?_, applyRegs_getLast st ops h⟩
  cases op <;> rfl

/-- Witness for C7: registering via the method then via the property on a
fresh loader leaves the property-registered callback in the slot. -/
theorem progressCallback_slot_spec_witness :
    getProgressCallbackProp
        (applyRegs (Loader.init Nat none) [RegOp.viaMethod 1, RegOp.viaProperty 2]) =
      some (regCb (([RegOp.viaMethod 1, RegOp.viaProperty 2]).getLast (by decide))) :=
  (progressCallback_slot_spec (Loader.init Nat none)
    [RegOp.viaMethod 1, RegOp.viaProperty 2] (by decide)).2.2

/- ### C3 and C5: the load listener -/

/-- A parse function standing for the host's `JSON.parse` on an input it
rejects (a malformed payload). -/
def failingParse : String → Except JsError Nat :=
  fun _ => .error ⟨"Unexpected token"⟩

theorem onLoadListener_accepted {β : Type} (rt : String)
    (parse : String → Except JsError β) (status : Nat) (statusText : String)
    (resp : JsResponse β) (hst : status = 200 ∨ status = 304 ∨ status = 0) :
    (∃ v, onLoadListener rt parse status statusText resp = .resolved v) ∨
    (∃ s e, resp = .str s ∧ rt = "json" ∧ parse s = .error e ∧
      onLoadListener rt parse status statusText resp = .threw e) := by
  cases resp with
  | str s =>
    by_cases hrt : rt = "json"
    · cases hp : parse s with
      | ok v => exact Or.inl ⟨.other v, by simp [onLoadListener, hst, hrt, hp]⟩
      | error e => exact Or.inr ⟨s, e, rfl, hrt, hp, by simp [onLoadListener, hst, hrt, hp]⟩
    · exact Or.inl ⟨.str s, by simp [onLoadListener, hst, hrt]⟩
  | other v => exact Or.inl ⟨.other v, by simp [onLoadListener, hst]⟩

theorem onLoadListener_rejected_iff {β : Type} (rt : String)
    (parse : String → Except JsError β) (status : Nat) (statusText : String)
    (resp : JsResponse β) (e : JsError) :
    onLoadListener rt parse status statusText resp = .rejected e ↔
      ¬(status = 200 ∨ status = 304 ∨ status = 0) ∧ e = ⟨statusText⟩ := by
  by_cases hst : status = 200 ∨ status = 304 ∨ status = 0
  · simp only [hst, not_true, false_and, iff_false]
    rcases onLoadListener_accepted rt parse status statusText resp hst with
      ⟨v, hv⟩ | ⟨s, e', _, _, _, hv⟩ <;> rw [hv] <;> exact fun h => HandlerOutcome.noConfusion h
  · simp only [onLoadListener]
    rw [if_neg hst]
    constructor
    · intro h
      exact ⟨hst, (HandlerOutcome.rejected.inj h).symm⟩
    · intro ⟨_, he⟩
      rw [he]

/-- Counterexample to C3 as stated: a completed transport exchange with
the accepted status 200 whose effective response type is "json" and whose
payload is an unparseable string does not resolve (nor reject): the parse
failure is thrown out of the load listener. -/
theorem status200_without_resolution_cex :
    (onLoadListener "json" failingParse 200 "OK" (JsResponse.str "nope")).isResolved = false ∧
    (onLoadListener "json" failingParse 200 "OK" (JsResponse.str "nope")).isRejected = false :=
  ⟨rfl, rfl⟩

/-- C3 (amended): a single fetch's outcome rejects exactly when the
transport completes with a status outside {200, 304, 0} — the rejection
message then equals the transport's status text — or a transport-level
error event fires, rejecting with the fixed "Network Error" message.  A
completion with an accepted status resolves, except when the effective
response type is "json" and the payload is an unparsed string the parser
fails on: that failure is thrown from the listener and nothing settles. -/
theorem singleFetch_rejection_spec {β : Type} (rt : String)
    (parse : String → Except JsError β) (status : Nat) (statusText : String)
    (resp : JsResponse β) :
    ((∃ e, onLoadListener rt parse status statusText resp = .rejected e) ↔
      ¬(status = 200 ∨ status = 304 ∨ status = 0)) ∧
    (∀ e, onLoadListener rt parse status statusText resp = .rejected e →
      e = ⟨statusText⟩) ∧
    ((status = 200 ∨ status = 304 ∨ status = 0) →
      (∀ s, resp = .str s → rt = "json" → (parse s).isOk = true) →
      (onLoadListener rt parse status statusText resp).isResolved = true) ∧
    onErrorListener β = .rejected ⟨"Network Error"⟩ := by
  refine ⟨⟨fun ⟨e, he⟩ => ((onLoadListener_rejected_iff _ _ _ _ _ _).mp he).1,
    fun hst => ⟨⟨statusText⟩, by simp only [onLoadListener]; rw [if_neg hst]⟩⟩,
    fun e he => ((onLoadListener_rejected_iff _ _ _ _ _ _).mp he).2, ?_, rfl⟩
  intro hst hp
  rcases onLoadListener_accepted rt parse status statusText resp hst with
    ⟨v, hv⟩ | ⟨s, e, hresp, hrt, hpe, _⟩
  · rw [hv]; rfl
  · have := hp s hresp hrt
    rw [hpe] at this
    exact absurd this (by simp [Except.isOk, Except.toBool])

/-- Witness for C3: a 200 completion with a binary payload resolves, and
a 404 completion rejects. -/
theorem singleFetch_rejection_spec_witness :
    (onLoadListener "arraybuffer" failingParse 200 "OK"
      (JsResponse.other (5 : Nat))).isResolved = true ∧
    (∃ e, onLoadListener "arraybuffer" failingParse 404 "Not Found"
      (JsResponse.other (5 : Nat)) = .rejected e) :=
  ⟨(singleFetch_rejection_spec "arraybuffer" failingParse 200 "OK" (.other 5)).2.2.1
      (Or.inl rfl) (fun s hs => JsResponse.noConfusion hs),
    ((singleFetch_rejection_spec "arraybuffer" failingParse 404 "Not Found" (.other 5)).1).mpr
      (by decide)⟩

/-- Counterexample to C5 as stated: on an otherwise successful response
whose string payload the parser rejects, the fetch's outcome is not a
rejection — the parser's failure escapes as a thrown exception. -/
theorem parseFailure_not_rejected_cex :
    (onLoadListener "json" failingParse 0 "" (JsResponse.str "\x7b")).isRejected = false ∧
    onLoadListener "json" failingParse 0 "" (JsResponse.str "\x7b") =
      .threw ⟨"Unexpected token"⟩ :=
  ⟨rfl, rfl⟩

/-- C5 (amended): for every fetch with effective response type "json"
whose transport delivers a successful response with an unparsed string
payload on which the parser fails, the parser's own failure propagates
unwrapped — but as an exception thrown out of the load listener, not as
a rejection: the fetch's outcome never settles. -/
theorem parseFailure_thrown_unwrapped {β : Type} (parse : String → Except JsError β)
    (status : Nat) (statusText : String) (s : String) (e : JsError)
    (hst : status = 200 ∨ status = 304 ∨ status = 0)
    (hp : parse s = .error e) :
    onLoadListener "json" parse status statusText (.str s) = .threw e ∧
    (onLoadListener "json" parse status statusText (JsResponse.str s)).isRejected = false := by
  have h : onLoadListener "json" parse status statusText (.str s) = .threw e := by
    simp only [onLoadListener]
    rw [if_pos hst]
    simp [hp]
  exact ⟨h, by rw [h]; rfl⟩

/-- Witness for C5 at a concrete malformed payload on a 304 completion. -/
theorem parseFailure_thrown_unwrapped_witness :
    onLoadListener "json" failingParse 304 "Not Modified" (.str "x") =
      .threw ⟨"Unexpected token"⟩ ∧
    (onLoadListener "json" failingParse 304 "Not Modified"
      (JsResponse.str "x")).isRejected = false :=
  parseFailure_thrown_unwrapped failingParse 304 "Not Modified" "x"
    ⟨"Unexpected token"⟩ (Or.inr (Or.inl rfl)) rfl

/- ### C6 and C9: the progress record -/

/-- Counterexample to C6 as stated: the progress record carries no field
named `fraction`; the loaded/total ratio is stored under the key
`value`. -/
theorem progressRecord_fraction_cex :
    (progressEventRecord 1 2 none).lookup "fraction" = none ∧
    (progressEventRecord 1 2 none).lookup "value" = some (1 / 2) := by
  constructor <;> simp [progressEventRecord, List.lookup]

/-- C6 (amended): on every progress notification a registered callback —
and only a registered one — is invoked with a record whose fields are
`value` (not `fraction`) holding loaded/total, `loaded`, and `total`,
plus `index` equal to the fetch's batch position exactly when the fetch
was dispatched with an index; batch members are dispatched with their
array positions, a single load without an index. -/
theorem progressRecord_spec {κ : Type} (slot : Option κ) (loaded total : ℚ)
    (index : Option Nat) :
    ((progressNotification slot loaded total index).isSome = slot.isSome) ∧
    (∀ cb rec, progressNotification slot loaded total index = some (cb, rec) →
      slot = some cb ∧
      rec.lookup "value" = some (loaded / total) ∧
      rec.lookup "loaded" = some loaded ∧
      rec.lookup "total" = some total ∧
      rec.lookup "fraction" = none ∧
      rec.lookup "index" = index.map (fun i => (i : ℚ))) ∧
    (∀ urls : List String, loadDispatched (.arr urls) =
      urls.enum.map fun p => (JsVal.str p.2, some p.1)) ∧
    (∀ s, loadDispatched (.str s) = [(.str s, none)]) := by
  refine ⟨by cases slot <;> rfl, ?_, fun urls => rfl, fun s => rfl⟩
  intro cb rec h
  cases slot with
  | none => exact Option.noConfusion h
  | some cb' =>
    rw [progressNotification] at h
    have hp := Option.some.inj h
    have hcb : cb' = cb := congrArg Prod.fst hp
    have hrec : progressEventRecord loaded total index = rec := congrArg Prod.snd hp
    subst hcb
    subst hrec
    refine ⟨rfl, ?_, ?_, ?_, ?_, ?_⟩ <;>
      cases index <;> simp [progressEventRecord, List.lookup]

/-- Witness for C6 on a batch-member notification with a registered
callback. -/
theorem progressRecord_spec_witness :
    (progressEventRecord 1 2 (some 3)).lookup "index" =
      (some 3).map (fun i => (i : ℚ)) ∧
    (progressEventRecord 1 2 (some 3)).lookup "fraction" = none :=
  have h := (progressRecord_spec (some (7 : Nat)) 1 2 (some 3)).2.1 7
    (progressEventRecord 1 2 (some 3)) rfl
  ⟨h.2.2.2.2.2, h.2.2.2.2.1⟩

/-- Counterexample to C9 as stated: a transport progress event reporting
more bytes loaded than total yields a value field above 1 — the code does
not clamp the ratio. -/
theorem progressValue_out_of_range_cex :
    (progressEventRecord 2 1 none).lookup "value" = some 2 ∧ ¬((2 : ℚ) ≤ 1) := by
  constructor
  · simp [progressEventRecord, List.lookup]
  · norm_num

/-- C9 (amended): the value field of a progress record is the unclamped
ratio loaded/total; it lies in [0, 1] exactly under the transport-side
guarantee 0 ≤ loaded ≤ total with total positive, which the code does
not enforce. -/
theorem progressValue_in_unit_interval (loaded total : ℚ) (index : Option Nat)
    (h0 : 0 ≤ loaded) (h1 : loaded ≤ total) (h2 : 0 < total) :
    ∀ v, (progressEventRecord loaded total index).lookup "value" = some v →
      0 ≤ v ∧ v ≤ 1 := by
  intro v hv
  have hveq : loaded / total = v := by
    cases index <;> simpa [progressEventRecord, List.lookup] using hv
  rw [← hveq]
  exact ⟨div_nonneg h0 h2.le, (div_le_one h2).mpr h1⟩

/-- Witness for C9 at loaded 1 of total 2. -/
theorem progressValue_in_unit_interval_witness :
    0 ≤ (1 : ℚ) / 2 ∧ (1 : ℚ) / 2 ≤ 1 :=
  progressValue_in_unit_interval 1 2 none zero_le_one one_le_two two_pos (1 / 2)
    (by simp [progressEventRecord, List.lookup])

/- ### C8: fire-time callback lookup -/

theorem runEvents_append {κ : Type} (st : LoaderState κ) (xs ys : List (SysEvent κ)) :
    runEvents st (xs ++ ys) = runEvents st xs ++ runEvents (finalState st xs) ys := by
  induction xs generalizing st with
  | nil => rfl
  | cons e es ih =>
    cases e with
    | register op => simpa [runEvents, finalState] using ih (applyReg st op)
    | progress l t i => simp [runEvents, finalState, ih st]

theorem runEvents_no_register {κ : Type} (st : LoaderState κ) (cb : κ)
    (hcb : st.progressCb = some cb) (es : List (SysEvent κ))
    (hes : ∀ e ∈ es, e.isRegister = false) :
    runEvents st es = es.filterMap (fun e =>
      match e with
      | .progress l t i => some (cb, progressEventRecord l t i)
      | .register _ => none) := by
  induction es with
  | nil => rfl
  | cons e es ih =>
    cases e with
    | register op =>
      exact absurd (hes _ (List.mem_cons_self _ _)) (by simp [SysEvent.isRegister])
    | progress l t i =>
      simp [runEvents, progressNotification, hcb, List.filterMap_cons,
        ih (fun e he => hes e (List.mem_cons_of_mem _ he))]

/-- C8: the callback a progress notification invokes is the one in the
slot at the moment the notification fires, not at dispatch time: after a
registration, every later progress event in the trace invokes the newly
registered callback, while the invocations produced before the
registration are exactly those of the unregistered prefix — no earlier
event is replayed to the new callback. -/
theorem lateRegistration_spec {κ : Type} (st : LoaderState κ)
    (pre post : List (SysEvent κ)) (op : RegOp κ)
    (hpost : ∀ e ∈ post, e.isRegister = false) :
    runEvents st (pre ++ SysEvent.register op :: post) =
      runEvents st pre ++ post.filterMap (fun e =>
        match e with
        | .progress l t i => some (regCb op, progressEventRecord l t i)
        | .register _ => none) := by
  rw [runEvents_append st pre (SysEvent.register op :: post)]
  congr 1
  show runEvents (applyReg (finalState st pre) op) post = _
  exact runEvents_no_register _ _ (by cases op <;> rfl) post hpost

/-- Witness for C8: one progress event before and one after a late
registration on a fresh loader. -/
theorem lateRegistration_spec_witness :
    runEvents (Loader.init Nat none)
        ([SysEvent.progress 1 2 none] ++ SysEvent.register (RegOp.viaMethod 9) ::
          [SysEvent.progress 3 4 (some 0)]) =
      runEvents (Loader.init Nat none) [SysEvent.progress 1 2 none] ++
        ([SysEvent.progress 3 4 (some 0)] : List (SysEvent Nat)).filterMap (fun e =>
          match e with
          | SysEvent.progress l t i =>
              some (regCb (RegOp.viaMethod 9), progressEventRecord l t i)
          | SysEvent.register _ => none) :=
  lateRegistration_spec (Loader.init Nat none) [SysEvent.progress 1 2 none]
    [SysEvent.progress 3 4 (some 0)] (RegOp.viaMethod 9)
    (fun e he => by rw [List.mem_singleton.mp he]; rfl)

end BufferLoader
